import Mathlib

/-!
Shallow embedding of the scientific-calculator frontend
(`src/calculator_frontend`: the `Calculator` component and its pure helpers
`toNumber`, `formatNumber`, `computeBinary`, the input handlers, the local
history cache and the Supabase readiness flag).

JavaScript numbers are modelled as exact rationals extended with the IEEE
special values NaN and signed infinity (`JsNum`).  The transcendental
builtins (`Math.sin`, `Math.cos`, `Math.tan`, `Math.log10`, `Math.log`,
`Math.exp`, `Math.sqrt`, `Math.pow`) and the constants `Math.PI`, `Math.E`
are abstract parameters collected in `TransFuns`: the properties under
study depend only on how the component wraps these builtins (guards,
absolute values, angle conversion), never on their numeric values, so every
theorem quantifies over an arbitrary `TransFuns`.  Exact rational
arithmetic for `+ - * /` is an idealisation of double arithmetic that is
faithful on the small integer and decimal inputs the claims exercise.

String rendering (`String(number)`) is modelled by `ratToString`: exact
decimal rendering for terminating decimal expansions (all integers and all
values arising in the claims) and a 20-digit truncation otherwise; its
output always lies in the decimal-literal language recognised by the
`Number` parser, which is the only fact the invariants rely on.
-/

namespace Calc

/-- Is `c` one of the ASCII digits 0-9? -/
def isDigitCh (c : Char) : Bool := decide ('0' ≤ c) && decide (c ≤ '9')

/-- The ASCII digit character for `n` (meaningful for `n < 10`). -/
def digitChar (n : ℕ) : Char := Char.ofNat (48 + n)

/-- Numeric value of an ASCII digit character. -/
def digitVal (c : Char) : ℕ := c.toNat - 48

/-- Value of a list of ASCII digit characters, most significant first. -/
def digitsToNat (cs : List Char) : ℕ := cs.foldl (fun a c => 10 * a + digitVal c) 0

/-- Decimal digit characters of `n`, fuel-driven so that it reduces by `rfl`. -/
def natDigitsAux : ℕ → ℕ → List Char
  | 0, _ => []
  | fuel + 1, n =>
      if n < 10 then [digitChar n]
      else natDigitsAux fuel (n / 10) ++ [digitChar (n % 10)]

/-- Decimal digit characters of `n` (e.g. `natDigits 15 = ['1', '5']`). -/
def natDigits (n : ℕ) : List Char := natDigitsAux (n + 1) n

/-! String helpers: JS strings are sequences of characters; the handlers use
single-character append (`curr + d`), `slice(0, -1)`, `slice(1)`,
`'-' + curr`, `length` and `includes('.')`. -/

def strOfChar (c : Char) : String := ⟨[c]⟩

def strPush (s : String) (c : Char) : String := ⟨s.data ++ [c]⟩

def strDropLast (s : String) : String := ⟨s.data.dropLast⟩

def strTail (s : String) : String := ⟨s.data.tail⟩

def strCons (c : Char) (s : String) : String := ⟨c :: s.data⟩

def strLen (s : String) : ℕ := s.data.length

/-- The source's `curr.includes('.')`. -/
def containsDot (s : String) : Bool := decide ('.' ∈ s.data)

/-- The source's `curr.startsWith('-')`. -/
def startsMinus (s : String) : Bool := decide (s.data.head? = some '-')

/-- A JavaScript number: an exact rational, NaN, or a signed infinity. -/
inductive JsNum where
  | num (q : ℚ)
  | nan
  | inf (pos : Bool)
deriving DecidableEq

namespace JsNum

/-- JS `a + b` on numbers (IEEE special-value rules; finite case exact). -/
def add : JsNum → JsNum → JsNum
  | nan, _ => nan
  | _, nan => nan
  | inf s, inf t => if s = t then inf s else nan
  | inf s, num _ => inf s
  | num _, inf t => inf t
  | num a, num b => num (a + b)

/-- JS `a - b` on numbers. -/
def sub : JsNum → JsNum → JsNum
  | nan, _ => nan
  | _, nan => nan
  | inf s, inf t => if s = t then nan else inf s
  | inf s, num _ => inf s
  | num _, inf t => inf (!t)
  | num a, num b => num (a - b)

/-- JS `a * b` on numbers. -/
def mul : JsNum → JsNum → JsNum
  | nan, _ => nan
  | _, nan => nan
  | inf s, inf t => inf (s == t)
  | inf s, num b => if b = 0 then nan else inf (s == decide (0 < b))
  | num a, inf t => if a = 0 then nan else inf (decide (0 < a) == t)
  | num a, num b => num (a * b)

/-- JS `a / b` on numbers (the caller `computeBinary` tests `b === 0` first). -/
def div : JsNum → JsNum → JsNum
  | nan, _ => nan
  | _, nan => nan
  | inf _, inf _ => nan
  | inf s, num b => if b = 0 then inf s else inf (s == decide (0 < b))
  | num _, inf _ => num 0
  | num a, num b => if b = 0 then nan else num (a / b)

end JsNum

/-- Least `k ≤ 20` with `den ∣ 10 ^ k` (20 when there is none): the number of
decimal digits needed to render a rational exactly. -/
def decExp (den : ℕ) : ℕ := ((List.range 21).find? (fun k => 10 ^ k % den == 0)).getD 20

/-- Left-pad a digit list with zeros to length `k`. -/
def padZeros (k : ℕ) (cs : List Char) : List Char := List.replicate (k - cs.length) '0' ++ cs

/-- Remove trailing `'0'` characters. -/
def stripZeros (cs : List Char) : List Char := (cs.reverse.dropWhile (fun c => c == '0')).reverse

/-- Decimal character rendering of a nonnegative rational, modelling JS
`String(number)`: plain digits for integers, otherwise digits, a point and
fraction digits without trailing zeros (exact when the decimal expansion
terminates, truncated to 20 fraction digits otherwise). -/
def ratCharsNN (q : ℚ) : List Char :=
  if q.den = 1 then natDigits q.num.toNat
  else
    let k := decExp q.den
    let scaled := (Rat.floor (q * (10 : ℚ) ^ k)).toNat
    natDigits (scaled / 10 ^ k) ++ '.' :: stripZeros (padZeros k (natDigits (scaled % 10 ^ k)))

/-- JS `String(number)` for a finite value (sign then magnitude). -/
def ratToString (q : ℚ) : String :=
  if q < 0 then ⟨'-' :: ratCharsNN (-q)⟩ else ⟨ratCharsNN q⟩

/-- JS `String(value)` on a number, including the non-finite tokens. -/
def jsToString : JsNum → String
  | .num q => ratToString q
  | .nan => "NaN"
  | .inf true => "Infinity"
  | .inf false => "-Infinity"

/-- The source's `formatNumber`: stringify; if the string has no decimal
point return it as is; otherwise re-parse with `parseFloat` and re-render
when finite (the identity on a finite number), keeping the string otherwise. -/
def formatNumber (v : JsNum) : String :=
  let str := jsToString v
  if containsDot str = false then str
  else
    match v with
    | .num q => ratToString q
    | _ => str

/-- The JS `Number()` decimal-literal grammar on an unsigned character list:
digits, optionally a point and further digits, with at least one digit in
total.  (Exponent, hexadecimal and whitespace forms never occur in display
buffers and are not modelled.)  Returns `none` when not a finite literal. -/
def parseUnsigned (cs : List Char) : Option ℚ :=
  let ip := cs.takeWhile isDigitCh
  match cs.dropWhile isDigitCh with
  | [] => if ip.isEmpty then none else some ((digitsToNat ip : ℚ))
  | c :: fs =>
      if c = '.' && fs.all isDigitCh && !(ip.isEmpty && fs.isEmpty) then
        some ((digitsToNat ip : ℚ) + (digitsToNat fs : ℚ) / (10 : ℚ) ^ fs.length)
      else none

/-- JS `Number(s)` restricted to finite results: `some q` when `s` is a
finite decimal literal (the empty string converts to 0), `none` when the
conversion yields NaN or an infinity. -/
def jsParseFinite (s : String) : Option ℚ :=
  match s.data with
  | [] => some 0
  | c :: rest => if c = '-' then (parseUnsigned rest).map (fun q => -q) else parseUnsigned (c :: rest)

/-- The source's `toNumber`: `Number(value)` when finite, else 0. -/
def toNumber (s : String) : ℚ := (jsParseFinite s).getD 0

/-- The abstract transcendental builtins and constants used by the component.
`sinF`, `cosF`, `tanF` and `sqrtF` (on its guarded nonnegative domain)
return finite doubles on finite input; `log10F`, `lnF`, `expF` and `powF`
may return non-finite values. -/
structure TransFuns where
  sinF : ℚ → ℚ
  cosF : ℚ → ℚ
  tanF : ℚ → ℚ
  log10F : ℚ → JsNum
  lnF : ℚ → JsNum
  expF : ℚ → JsNum
  sqrtF : ℚ → ℚ
  powF : JsNum → JsNum → JsNum
  piV : ℚ
  eV : ℚ

/-- The source's `computeBinary`: switch on the operator character, with
the `b === 0` guard on division and the default case returning `b`. -/
def computeBinary (T : TransFuns) (a b : JsNum) (op : Char) : JsNum :=
  if op = '+' then a.add b
  else if op = '-' then a.sub b
  else if op = '×' ∨ op = '*' then a.mul b
  else if op = '÷' ∨ op = '/' then (if b = .num 0 then .nan else a.div b)
  else if op = '^' then T.powF a b
  else b

/-- The function `computeBinary` as called with the (nullable) pending operator: a null
operator falls through the switch to the default case, returning `b`. -/
def computeBinaryO (T : TransFuns) (a b : JsNum) (op : Option Char) : JsNum :=
  match op with
  | some c => computeBinary T a b c
  | none => b

inductive AngleMode where
  | DEG
  | RAD
deriving DecidableEq

inductive ConstKind where
  | PI
  | E
deriving DecidableEq

/-- The unary-function tags accepted by `applyUnary` in the source. -/
inductive UnaryFn where
  | sin
  | cos
  | tan
  | log
  | ln
  | sqrt
  | x2
  | inv
  | exp
  | absf
deriving DecidableEq

/-- The string tag the source passes for each unary function. -/
def unaryLabel : UnaryFn → String
  | .sin => "sin"
  | .cos => "cos"
  | .tan => "tan"
  | .log => "log"
  | .ln => "ln"
  | .sqrt => "sqrt"
  | .x2 => "x2"
  | .inv => "1/x"
  | .exp => "exp"
  | .absf => "|x|"

/-- The source's `toRadians`: `(deg * Math.PI) / 180`. -/
def toRadians (T : TransFuns) (deg : ℚ) : ℚ := deg * T.piV / 180

/-- The source's `fromAngleInput`: convert degrees to radians in DEG mode. -/
def fromAngleInput (T : TransFuns) (m : AngleMode) (x : ℚ) : ℚ :=
  if m = .DEG then toRadians T x else x

/-- The value computed by the `switch (fn)` block of `applyUnary`. -/
def unaryValue (T : TransFuns) (m : AngleMode) (fn : UnaryFn) (x : ℚ) : JsNum :=
  match fn with
  | .sin => .num (T.sinF (fromAngleInput T m x))
  | .cos => .num (T.cosF (fromAngleInput T m x))
  | .tan => .num (T.tanF (fromAngleInput T m x))
  | .log => T.log10F |x|
  | .ln => T.lnF |x|
  | .sqrt => if x < 0 then .nan else .num (T.sqrtF x)
  | .x2 => .num (x * x)
  | .inv => if x = 0 then .nan else .num (1 / x)
  | .exp => T.expF x
  | .absf => .num |x|

/-- A local history entry (the `created_at` timestamp carries no logic and is
omitted). -/
structure HistoryEntry where
  expression : String
  result : String
deriving DecidableEq

/-- The React state of the `Calculator` component.  `sbReady` is the
connectivity flag: `true` is the Connected state, `false` covers the
Unconfigured and Offline states of the spec. -/
structure CalcState where
  display : String
  prevValue : Option JsNum
  operator : Option Char
  waitingForOperand : Bool
  angleMode : AngleMode
  history : List HistoryEntry
  sbReady : Bool
deriving DecidableEq

/-- The component's initial state; `configured` is `isSupabaseConfigured()`. -/
def initState (configured : Bool) : CalcState :=
  { display := "0", prevValue := none, operator := none, waitingForOperand := false,
    angleMode := .DEG, history := [], sbReady := configured }

/-- The source's `pushHistory`: prepend the new entry and truncate to 10. -/
def pushHistory (expression result : String) (h : List HistoryEntry) : List HistoryEntry :=
  ({ expression := expression, result := result } :: h).take 10

/-- The effect of `persistHistory` on `sbReady`: no write is attempted when
not ready; a failed write (`werr = true`) clears the flag. -/
def persistReady (ready werr : Bool) : Bool :=
  if ready = false then ready else if werr then false else ready

/-- The two non-waiting branches of `handleDigit`: replace a lone "0",
otherwise append the digit character. -/
def appendDigit (curr : String) (d : Char) : String :=
  if curr = "0" then strOfChar d else strPush curr d

/-- The source's `handleDigit`. -/
def handleDigit (d : Char) (s : CalcState) : CalcState :=
  if s.waitingForOperand then { s with display := strOfChar d, waitingForOperand := false }
  else { s with display := appendDigit s.display d }

/-- The source's `handleDecimal`. -/
def handleDecimal (s : CalcState) : CalcState :=
  if s.waitingForOperand then { s with display := "0.", waitingForOperand := false }
  else if containsDot s.display = false then { s with display := strPush s.display '.' }
  else s

/-- The source's `handleOperator`. -/
def handleOperator (T : TransFuns) (nextOp : Char) (s : CalcState) : CalcState :=
  let inputValue := toNumber s.display
  match s.prevValue with
  | none =>
      { s with prevValue := some (.num inputValue), operator := some nextOp,
               waitingForOperand := true }
  | some pv =>
      if s.waitingForOperand = false then
        let result := computeBinaryO T pv (.num inputValue) s.operator
        { s with prevValue := some result, display := formatNumber result,
                 operator := some nextOp, waitingForOperand := true }
      else { s with operator := some nextOp, waitingForOperand := true }

/-- The source's `handleEquals` (with the boolean write outcome of the
dispatched `persistHistory` call as an explicit environment input). -/
def handleEquals (T : TransFuns) (werr : Bool) (s : CalcState) : CalcState :=
  match s.operator, s.prevValue with
  | some c, some a =>
      let b := toNumber s.display
      let result := computeBinaryO T a (.num b) s.operator
      let expr := formatNumber a ++ " " ++ strOfChar c ++ " " ++ formatNumber (.num b)
      { s with display := formatNumber result, prevValue := none, operator := none,
               waitingForOperand := true,
               history := pushHistory expr (jsToString result) s.history,
               sbReady := persistReady s.sbReady werr }
  | _, _ => s

/-- The source's `handleClear`. -/
def handleClear (s : CalcState) : CalcState :=
  { s with display := "0", prevValue := none, operator := none, waitingForOperand := false }

/-- The source's `handleDelete`. -/
def handleDelete (s : CalcState) : CalcState :=
  if s.waitingForOperand then s
  else if strLen s.display ≤ 1 then { s with display := "0" }
  else
    let next := strDropLast s.display
    { s with display := if next = "-" then "0" else next }

/-- The source's `handlePlusMinus`. -/
def handlePlusMinus (s : CalcState) : CalcState :=
  if s.display = "0" then s
  else if startsMinus s.display then { s with display := strTail s.display }
  else { s with display := strCons '-' s.display }

/-- The source's `handlePercent`. -/
def handlePercent (s : CalcState) : CalcState :=
  { s with display := formatNumber (.num (toNumber s.display / 100)) }

/-- The source's `handleConstant` (the UI only invokes it with PI or E). -/
def handleConstant (T : TransFuns) (k : ConstKind) (s : CalcState) : CalcState :=
  match k with
  | .PI => { s with display := formatNumber (.num T.piV), waitingForOperand := false }
  | .E => { s with display := formatNumber (.num T.eV), waitingForOperand := false }

/-- The source's `applyUnary` (value switch factored into `unaryValue`;
the write outcome of the dispatched `persistHistory` call is explicit). -/
def applyUnary (T : TransFuns) (fn : UnaryFn) (werr : Bool) (s : CalcState) : CalcState :=
  let x := toNumber s.display
  let y := unaryValue T s.angleMode fn x
  let expr := unaryLabel fn ++ "(" ++ formatNumber (.num x) ++ ")"
  { s with display := formatNumber y, waitingForOperand := true,
           history := pushHistory expr (jsToString y) s.history,
           sbReady := persistReady s.sbReady werr }

/-- The angle-mode toggle button. -/
def toggleAngleMode (s : CalcState) : CalcState :=
  { s with angleMode := if s.angleMode = .DEG then .RAD else .DEG }

/-- One user input, as producible by the buttons and the keyboard handler:
digits are 0-9, operators are arbitrary characters (the UI sends
`+ - * / ^`), and the evaluating inputs carry the outcome of their
fire-and-forget external write. -/
inductive Input where
  | digit (d : Fin 10)
  | decimal
  | op (c : Char)
  | equals (werr : Bool)
  | clear
  | del
  | plusMinus
  | percent
  | const (k : ConstKind)
  | unary (fn : UnaryFn) (werr : Bool)
  | angle

/-- Dispatch one input to its handler. -/
def step (T : TransFuns) (i : Input) (s : CalcState) : CalcState :=
  match i with
  | .digit d => handleDigit (digitChar d.val) s
  | .decimal => handleDecimal s
  | .op c => handleOperator T c s
  | .equals w => handleEquals T w s
  | .clear => handleClear s
  | .del => handleDelete s
  | .plusMinus => handlePlusMinus s
  | .percent => handlePercent s
  | .const k => handleConstant T k s
  | .unary fn w => applyUnary T fn w s
  | .angle => toggleAngleMode s

/-- Run a sequence of inputs. -/
def run (T : TransFuns) (is : List Input) (s : CalcState) : CalcState :=
  is.foldl (fun s i => step T i s) s

/-- The initial-mount `loadHistory` effect: when ready, probe accessibility
(failure clears `sbReady`), then hydrate the cache from the store.
Modelled from the spec: `lib/supabaseClient.js` (`checkCalcHistoryAccessible`,
`getRecentHistory`) is not among the sources; per the spec a failed
hydration read (`readRows = none`) also degrades connectivity to Offline. -/
def mount (probeOk : Bool) (readRows : Option (List HistoryEntry)) (s : CalcState) : CalcState :=
  if s.sbReady = false then s
  else if probeOk = false then { s with sbReady := false }
  else
    match readRows with
    | none => { s with sbReady := false }
    | some rows => { s with history := rows }

/-- A concrete instantiation of the abstract builtins, used to evaluate the
machine on explicit inputs in witnesses (no claim depends on its values). -/
def trivialTrans : TransFuns :=
  { sinF := fun _ => 0, cosF := fun _ => 0, tanF := fun _ => 0,
    log10F := fun _ => .nan, lnF := fun _ => .nan, expF := fun _ => .num 1,
    sqrtF := fun _ => 0, powF := fun _ _ => .nan, piV := 0, eV := 0 }

/-! ### Claim-support definitions -/

/-- The display buffer produced by a sequence of digit presses that starts a
fresh operand (the lone-"0" replacement rule makes this a fold of
`appendDigit` from "0"). -/
def digitBuf (ds : List (Fin 10)) : String :=
  ds.foldl (fun cur d => appendDigit cur (digitChar d.val)) "0"

/-- One step of the spec-side left-to-right chain evaluation: combine the
accumulator with the next operand (a freshly keyed digit buffer) using the
operator pressed before it. -/
def chainStep (T : TransFuns) (acc : JsNum) (p : Char × List (Fin 10)) : JsNum :=
  computeBinary T acc (.num (toNumber (digitBuf p.2))) p.1

/-- Spec-side left-to-right sequential evaluation of an operator chain with
first operand `x0` and subsequent (operator, operand) pairs `ps`. -/
def chainEval (T : TransFuns) (x0 : List (Fin 10)) (ps : List (Char × List (Fin 10))) : JsNum :=
  ps.foldl (chainStep T) (.num (toNumber (digitBuf x0)))

/-- The key presses for one (operator, operand) pair of a chain. -/
def chunk (p : Char × List (Fin 10)) : List Input :=
  Input.op p.1 :: p.2.map Input.digit

/-- The key sequence of an operator chain without intermediate equals:
the digits of the first operand, then operator/operand pairs, then equals. -/
def chainInputs (x0 : List (Fin 10)) (ps : List (Char × List (Fin 10))) (w : Bool) : List Input :=
  x0.map Input.digit ++ (ps.map chunk).flatten ++ [Input.equals w]

/-- The textual tokens of non-finite values, possibly sign-toggled. -/
def nonFiniteToken (s : String) : Bool :=
  s = "NaN" || s = "-NaN" || s = "Infinity" || s = "-Infinity"

/-- The decimal-literal shape of an unsigned buffer: a nonempty run of digit
characters, optionally followed by a point and further digit characters. -/
def charsShape (cs : List Char) : Prop :=
  ∃ ds rest, cs = ds ++ rest ∧ ds ≠ [] ∧ ds.all isDigitCh = true ∧
    (rest = [] ∨ ∃ fs, rest = '.' :: fs ∧ fs.all isDigitCh = true)

/-- The decimal-literal shape of a display buffer, with an optional sign. -/
def strShape (s : String) : Prop :=
  charsShape s.data ∨ ∃ cs, s.data = '-' :: cs ∧ charsShape cs

/-- Number of decimal points in a buffer. -/
def countDots (s : String) : ℕ := s.data.count '.'

/-- The display invariant maintained by every handler: the buffer is a
(possibly signed) decimal literal or a non-finite token, and a token can
only be on screen while the operand-boundary flag is set. -/
def DisplayInv (s : CalcState) : Prop :=
  (strShape s.display ∨ nonFiniteToken s.display = true) ∧
  (nonFiniteToken s.display = true → s.waitingForOperand = true)

end Calc

namespace Calc

/-! ### Character and digit-string lemmas -/

theorem isDigitCh_digitChar {n : ℕ} (h : n < 10) : isDigitCh (digitChar n) = true := by
  interval_cases n <;> decide

theorem natDigitsAux_spec {fuel n : ℕ} (h : n < fuel) :
    natDigitsAux fuel n ≠ [] ∧ (natDigitsAux fuel n).all isDigitCh = true := by
  induction fuel generalizing n with
  | zero => exact absurd h (Nat.not_lt_zero n)
  | succ f ih =>
    by_cases h10 : n < 10
    · refine ⟨by simp [natDigitsAux, h10], ?_⟩
      simp [natDigitsAux, h10, isDigitCh_digitChar h10]
    · have hlt : n / 10 < n := Nat.div_lt_self (by omega) (by omega)
      obtain ⟨hne, hall⟩ := ih (n := n / 10) (by omega)
      refine ⟨?_, ?_⟩
      · intro hc
        rw [natDigitsAux] at hc
        simp [h10] at hc
      · rw [natDigitsAux]
        simp [h10, List.all_append, hall, isDigitCh_digitChar (Nat.mod_lt n (by omega))]

theorem natDigits_ne_nil (n : ℕ) : natDigits n ≠ [] :=
  (natDigitsAux_spec (Nat.lt_succ_self n)).1

theorem natDigits_all (n : ℕ) : (natDigits n).all isDigitCh = true :=
  (natDigitsAux_spec (Nat.lt_succ_self n)).2

theorem all_dropWhile {p q : Char → Bool} {l : List Char} (h : l.all p = true) :
    (l.dropWhile q).all p = true := by
  induction l with
  | nil => simp
  | cons a l ih =>
    simp only [List.all_cons, Bool.and_eq_true] at h
    simp only [List.dropWhile_cons]
    by_cases hq : q a = true
    · simp [hq, ih h.2]
    · simp [hq, List.all_cons, h.1, h.2]

theorem takeWhile_all_append {p : Char → Bool} (ds rest : List Char) (hds : ds.all p = true)
    (hr : ∀ c, rest.head? = some c → p c = false) :
    (ds ++ rest).takeWhile p = ds ∧ (ds ++ rest).dropWhile p = rest := by
  induction ds with
  | nil =>
    simp only [List.nil_append]
    cases rest with
    | nil => simp
    | cons c cs =>
      have hc := hr c rfl
      constructor
      · simp [List.takeWhile_cons, hc]
      · simp [List.dropWhile_cons, hc]
  | cons d ds ih =>
    simp only [List.all_cons, Bool.and_eq_true] at hds
    obtain ⟨h1, h2⟩ := ih hds.2
    constructor
    · simp [List.takeWhile_cons, hds.1, h1]
    · simp [List.dropWhile_cons, hds.1, h2]

/-! ### The parser accepts every decimal-literal-shaped buffer -/

theorem parseUnsigned_isSome_of_shape {cs : List Char} (h : charsShape cs) :
    (parseUnsigned cs).isSome = true := by
  obtain ⟨ds, rest, rfl, hne, hall, hrest⟩ := h
  have hr : ∀ c, rest.head? = some c → isDigitCh c = false := by
    rcases hrest with rfl | ⟨fs, rfl, hfs⟩
    · intro c hc; simp at hc
    · intro c hc
      simp only [List.head?_cons, Option.some.injEq] at hc
      subst hc
      decide
  obtain ⟨ht, hd⟩ := takeWhile_all_append ds rest hall hr
  have hde : ds.isEmpty = false := by
    cases ds with
    | nil => exact absurd rfl hne
    | cons a l => rfl
  rcases hrest with rfl | ⟨fs, rfl, hfs⟩
  · simp only [parseUnsigned, hd, ht, hde]
    simp
  · simp only [parseUnsigned, hd, ht, hde, hfs]
    simp

theorem jsParseFinite_isSome_of_shape {s : String} (h : strShape s) :
    (jsParseFinite s).isSome = true := by
  rcases h with h | ⟨cs, hdata, h⟩
  · have hsome := parseUnsigned_isSome_of_shape h
    obtain ⟨ds, rest, hcs, hne, hall, _⟩ := h
    cases ds with
    | nil => exact absurd rfl hne
    | cons c ds2 =>
      have hcd : isDigitCh c = true := by
        simp only [List.all_cons, Bool.and_eq_true] at hall
        exact hall.1
      have hcm : ¬ c = '-' := by
        intro e
        rw [e] at hcd
        exact absurd hcd (by decide)
      rw [hcs] at hsome
      simp only [jsParseFinite, hcs, List.cons_append]
      rw [if_neg hcm]
      simpa [List.cons_append] using hsome
  · have hsome := parseUnsigned_isSome_of_shape h
    simp only [jsParseFinite, hdata, if_pos]
    simp [Option.isSome_map, hsome]

/-! ### Shape of rendered numbers -/

theorem all_replicate_zero (m : ℕ) : (List.replicate m '0').all isDigitCh = true := by
  induction m with
  | zero => rfl
  | succ k ih =>
    rw [List.replicate_succ, List.all_cons, ih]
    decide

theorem all_padZeros {k : ℕ} {cs : List Char} (h : cs.all isDigitCh = true) :
    (padZeros k cs).all isDigitCh = true := by
  rw [padZeros, List.all_append, all_replicate_zero, h]
  rfl

theorem all_stripZeros {cs : List Char} (h : cs.all isDigitCh = true) :
    (stripZeros cs).all isDigitCh = true := by
  rw [stripZeros, List.all_reverse]
  exact all_dropWhile (by rw [List.all_reverse]; exact h)

theorem charsShape_ratCharsNN (q : ℚ) : charsShape (ratCharsNN q) := by
  rw [ratCharsNN]
  by_cases hden : q.den = 1
  · rw [if_pos hden]
    exact ⟨natDigits q.num.toNat, [], (List.append_nil _).symm, natDigits_ne_nil _,
      natDigits_all _, Or.inl rfl⟩
  · rw [if_neg hden]
    exact ⟨natDigits _, '.' :: stripZeros (padZeros _ (natDigits _)), rfl, natDigits_ne_nil _,
      natDigits_all _, Or.inr ⟨_, rfl, all_stripZeros (all_padZeros (natDigits_all _))⟩⟩

theorem strShape_ratToString (q : ℚ) : strShape (ratToString q) := by
  rw [ratToString]
  by_cases hq : q < 0
  · rw [if_pos hq]
    exact Or.inr ⟨ratCharsNN (-q), rfl, charsShape_ratCharsNN _⟩
  · rw [if_neg hq]
    exact Or.inl (charsShape_ratCharsNN _)

theorem formatNumber_num (q : ℚ) : formatNumber (.num q) = ratToString q := by
  simp only [formatNumber]
  split
  · rfl
  · rfl

theorem fmt_shape_or_token (v : JsNum) :
    strShape (formatNumber v) ∨ nonFiniteToken (formatNumber v) = true := by
  cases v with
  | num q =>
    rw [formatNumber_num]
    exact Or.inl (strShape_ratToString q)
  | nan => exact Or.inr (by decide)
  | inf b =>
    cases b
    · exact Or.inr (by decide)
    · exact Or.inr (by decide)

theorem charsShape_head {cs : List Char} (h : charsShape cs) :
    ∃ c cs2, cs = c :: cs2 ∧ isDigitCh c = true := by
  obtain ⟨ds, rest, rfl, hne, hall, _⟩ := h
  cases ds with
  | nil => exact absurd rfl hne
  | cons c ds2 =>
    simp only [List.all_cons, Bool.and_eq_true] at hall
    exact ⟨c, ds2 ++ rest, rfl, hall.1⟩

theorem not_token_of_shape {s : String} (h : strShape s) : nonFiniteToken s = false := by
  by_contra hb
  rw [Bool.not_eq_false] at hb
  have h4 : ((s = "NaN" ∨ s = "-NaN") ∨ s = "Infinity") ∨ s = "-Infinity" := by
    simpa [nonFiniteToken, Bool.or_eq_true, decide_eq_true_eq] using hb
  rcases h with h | ⟨cs, hdata, h⟩
  · obtain ⟨c, cs2, hcs, hdig⟩ := charsShape_head h
    rcases h4 with ((rfl | rfl) | rfl) | rfl
    · rw [show ("NaN" : String).data = ['N', 'a', 'N'] from rfl] at hcs
      injection hcs with e1 _
      rw [← e1] at hdig
      exact absurd hdig (by decide)
    · rw [show ("-NaN" : String).data = ['-', 'N', 'a', 'N'] from rfl] at hcs
      injection hcs with e1 _
      rw [← e1] at hdig
      exact absurd hdig (by decide)
    · rw [show ("Infinity" : String).data = ['I', 'n', 'f', 'i', 'n', 'i', 't', 'y'] from rfl] at hcs
      injection hcs with e1 _
      rw [← e1] at hdig
      exact absurd hdig (by decide)
    · rw [show ("-Infinity" : String).data = ['-', 'I', 'n', 'f', 'i', 'n', 'i', 't', 'y'] from rfl] at hcs
      injection hcs with e1 _
      rw [← e1] at hdig
      exact absurd hdig (by decide)
  · obtain ⟨c, cs2, hcs, hdig⟩ := charsShape_head h
    rcases h4 with ((rfl | rfl) | rfl) | rfl
    · rw [show ("NaN" : String).data = ['N', 'a', 'N'] from rfl] at hdata
      injection hdata with e1 _
      exact absurd e1 (by decide)
    · rw [show ("-NaN" : String).data = ['-', 'N', 'a', 'N'] from rfl] at hdata
      injection hdata with _ e2
      rw [← e2] at hcs
      injection hcs with e3 _
      rw [← e3] at hdig
      exact absurd hdig (by decide)
    · rw [show ("Infinity" : String).data = ['I', 'n', 'f', 'i', 'n', 'i', 't', 'y'] from rfl] at hdata
      injection hdata with e1 _
      exact absurd e1 (by decide)
    · rw [show ("-Infinity" : String).data = ['-', 'I', 'n', 'f', 'i', 'n', 'i', 't', 'y'] from rfl] at hdata
      injection hdata with _ e2
      rw [← e2] at hcs
      injection hcs with e3 _
      rw [← e3] at hdig
      exact absurd hdig (by decide)

end Calc

namespace Calc

/-! ### Shape preservation by the buffer-editing handlers -/

theorem charsShape_concat_digit {cs : List Char} {c : Char} (h : charsShape cs)
    (hc : isDigitCh c = true) : charsShape (cs ++ [c]) := by
  obtain ⟨ds, rest, rfl, hne, hall, hrest⟩ := h
  rcases hrest with rfl | ⟨fs, rfl, hfs⟩
  · exact ⟨ds ++ [c], [], by simp, by simp, by simp [List.all_append, hall, hc], Or.inl rfl⟩
  · exact ⟨ds, '.' :: (fs ++ [c]), by simp, hne, hall,
      Or.inr ⟨fs ++ [c], rfl, by simp [List.all_append, hfs, hc]⟩⟩

theorem strShape_strOfChar_digit {c : Char} (hc : isDigitCh c = true) : strShape (strOfChar c) :=
  Or.inl ⟨[c], [], rfl, by simp, by simp [List.all_cons, hc], Or.inl rfl⟩

theorem strShape_push_digit {s : String} {c : Char} (h : strShape s) (hc : isDigitCh c = true) :
    strShape (strPush s c) := by
  rcases h with h | ⟨cs, hdata, h⟩
  · exact Or.inl (charsShape_concat_digit h hc)
  · refine Or.inr ⟨cs ++ [c], ?_, charsShape_concat_digit h hc⟩
    show s.data ++ [c] = '-' :: (cs ++ [c])
    rw [hdata]
    rfl

theorem strShape_appendDigit {s : String} {c : Char} (h : strShape s) (hc : isDigitCh c = true) :
    strShape (appendDigit s c) := by
  rw [appendDigit]
  by_cases h0 : s = "0"
  · rw [if_pos h0]
    exact strShape_strOfChar_digit hc
  · rw [if_neg h0]
    exact strShape_push_digit h hc

theorem strShape_zero : strShape ("0" : String) :=
  Or.inl ⟨['0'], [], rfl, by simp, by decide, Or.inl rfl⟩

theorem strShape_zeroDot : strShape ("0." : String) :=
  Or.inl ⟨['0'], ['.'], rfl, by simp, by decide, Or.inr ⟨[], rfl, rfl⟩⟩

theorem strShape_push_dot {s : String} (h : strShape s) (hnd : containsDot s = false) :
    strShape (strPush s '.') := by
  have hmem : ('.' : Char) ∉ s.data := of_decide_eq_false hnd
  rcases h with h | ⟨cs, hdata, h⟩
  · left
    show charsShape (s.data ++ ['.'])
    obtain ⟨ds, rest, hcs, hne, hall, hrest⟩ := h
    rcases hrest with rfl | ⟨fs, rfl, hfs⟩
    · rw [hcs]
      exact ⟨ds, ['.'], by simp, hne, hall, Or.inr ⟨[], rfl, rfl⟩⟩
    · exfalso
      apply hmem
      rw [hcs]
      simp
  · right
    obtain ⟨ds, rest, hcs, hne, hall, hrest⟩ := h
    refine ⟨cs ++ ['.'], ?_, ?_⟩
    · show s.data ++ ['.'] = '-' :: (cs ++ ['.'])
      rw [hdata]
      rfl
    · rcases hrest with rfl | ⟨fs, rfl, hfs⟩
      · rw [hcs]
        exact ⟨ds, ['.'], by simp, hne, hall, Or.inr ⟨[], rfl, rfl⟩⟩
      · exfalso
        apply hmem
        rw [hdata, hcs]
        simp

theorem dropLast_cons_of_ne_nil {a : Char} {l : List Char} (h : l ≠ []) :
    (a :: l).dropLast = a :: l.dropLast := by
  cases l with
  | nil => exact absurd rfl h
  | cons b t => rfl

theorem charsShape_dropLast {cs : List Char} (h : charsShape cs) (hne2 : cs.dropLast ≠ []) :
    charsShape cs.dropLast := by
  obtain ⟨ds, rest, rfl, hne, hall, hrest⟩ := h
  rcases hrest with rfl | ⟨fs, rfl, hfs⟩
  · have hd2 : ds.dropLast ++ [ds.getLast hne] = ds := List.dropLast_append_getLast hne
    by_cases hdd : ds.dropLast = []
    · exfalso
      apply hne2
      rw [List.append_nil]
      exact hdd
    · rw [List.append_nil]
      refine ⟨ds.dropLast, [], (List.append_nil _).symm, hdd, ?_, Or.inl rfl⟩
      rw [← hd2, List.all_append, Bool.and_eq_true] at hall
      exact hall.1
  · by_cases hfe : fs = []
    · subst hfe
      rw [List.dropLast_concat]
      exact ⟨ds, [], (List.append_nil _).symm, hne, hall, Or.inl rfl⟩
    · have hf2 : fs.dropLast ++ [fs.getLast hfe] = fs := List.dropLast_append_getLast hfe
      have hrw : ds ++ '.' :: fs = (ds ++ '.' :: fs.dropLast) ++ [fs.getLast hfe] := by
        have hx : (ds ++ '.' :: fs.dropLast) ++ [fs.getLast hfe] =
            ds ++ '.' :: (fs.dropLast ++ [fs.getLast hfe]) := by
          simp
        rw [hx, hf2]
      rw [hrw, List.dropLast_concat]
      refine ⟨ds, '.' :: fs.dropLast, rfl, hne, hall, Or.inr ⟨fs.dropLast, rfl, ?_⟩⟩
      rw [← hf2, List.all_append, Bool.and_eq_true] at hfs
      exact hfs.1

theorem strShape_dropLast {s : String} (h : strShape s) (hlen : 2 ≤ s.data.length)
    (hm : strDropLast s ≠ "-") : strShape (strDropLast s) := by
  rcases h with h | ⟨cs, hdata, h⟩
  · left
    show charsShape s.data.dropLast
    apply charsShape_dropLast h
    intro hc
    have hl := congrArg List.length hc
    rw [List.length_dropLast, List.length_nil] at hl
    omega
  · have hcne : cs ≠ [] := by
      obtain ⟨c0, cs2, hcs, _⟩ := charsShape_head h
      rw [hcs]
      simp
    have hd1 : s.data.dropLast = '-' :: cs.dropLast := by
      rw [hdata]
      exact dropLast_cons_of_ne_nil hcne
    by_cases hdd : cs.dropLast = []
    · exfalso
      apply hm
      show (⟨s.data.dropLast⟩ : String) = "-"
      rw [hd1, hdd]
    · right
      refine ⟨cs.dropLast, ?_, charsShape_dropLast h hdd⟩
      show s.data.dropLast = '-' :: cs.dropLast
      exact hd1

end Calc

namespace Calc

/-! ### The display invariant is preserved by every input -/

theorem displayInv_of_shape {s : CalcState} (hs : strShape s.display) : DisplayInv s :=
  ⟨Or.inl hs, fun ht => absurd ht (by rw [not_token_of_shape hs]; exact Bool.false_ne_true)⟩

theorem shape_of_inv_not_waiting {s : CalcState} (h : DisplayInv s)
    (hw : ¬ s.waitingForOperand = true) : strShape s.display := by
  rcases h.1 with hs | ht
  · exact hs
  · exact absurd (h.2 ht) hw

theorem displayInv_handleDigit {n : ℕ} (hn : n < 10) (s : CalcState) (h : DisplayInv s) :
    DisplayInv (handleDigit (digitChar n) s) := by
  rw [handleDigit]
  by_cases hw : s.waitingForOperand = true
  · rw [if_pos hw]
    exact displayInv_of_shape (strShape_strOfChar_digit (isDigitCh_digitChar hn))
  · rw [if_neg hw]
    exact displayInv_of_shape
      (strShape_appendDigit (shape_of_inv_not_waiting h hw) (isDigitCh_digitChar hn))

theorem displayInv_handleDecimal (s : CalcState) (h : DisplayInv s) :
    DisplayInv (handleDecimal s) := by
  rw [handleDecimal]
  by_cases hw : s.waitingForOperand = true
  · rw [if_pos hw]
    exact displayInv_of_shape strShape_zeroDot
  · rw [if_neg hw]
    by_cases hdot : containsDot s.display = false
    · rw [if_pos hdot]
      exact displayInv_of_shape (strShape_push_dot (shape_of_inv_not_waiting h hw) hdot)
    · rw [if_neg hdot]
      exact h

theorem displayInv_handleOperator (T : TransFuns) (c : Char) (s : CalcState) (h : DisplayInv s) :
    DisplayInv (handleOperator T c s) := by
  rw [handleOperator]
  split
  · exact ⟨h.1, fun _ => rfl⟩
  · split
    · exact ⟨fmt_shape_or_token _, fun _ => rfl⟩
    · exact ⟨h.1, fun _ => rfl⟩

theorem displayInv_handleEquals (T : TransFuns) (w : Bool) (s : CalcState) (h : DisplayInv s) :
    DisplayInv (handleEquals T w s) := by
  rw [handleEquals]
  cases hop : s.operator with
  | none => exact h
  | some c =>
    cases hpv : s.prevValue with
    | none => exact h
    | some a => exact ⟨fmt_shape_or_token _, fun _ => rfl⟩

theorem displayInv_handleClear (s : CalcState) : DisplayInv (handleClear s) :=
  displayInv_of_shape strShape_zero

theorem displayInv_handleDelete (s : CalcState) (h : DisplayInv s) :
    DisplayInv (handleDelete s) := by
  rw [handleDelete]
  by_cases hw : s.waitingForOperand = true
  · rw [if_pos hw]
    exact h
  · rw [if_neg hw]
    have hsd := shape_of_inv_not_waiting h hw
    by_cases hl : strLen s.display ≤ 1
    · rw [if_pos hl]
      exact displayInv_of_shape strShape_zero
    · rw [if_neg hl]
      show DisplayInv
        { s with display := if strDropLast s.display = "-" then "0" else strDropLast s.display }
      by_cases hm : strDropLast s.display = "-"
      · rw [if_pos hm]
        exact displayInv_of_shape strShape_zero
      · rw [if_neg hm]
        refine displayInv_of_shape (strShape_dropLast hsd ?_ hm)
        rw [strLen] at hl
        omega

theorem token_cases {s : String} (ht : nonFiniteToken s = true) :
    ((s = "NaN" ∨ s = "-NaN") ∨ s = "Infinity") ∨ s = "-Infinity" := by
  simpa [nonFiniteToken, Bool.or_eq_true, decide_eq_true_eq] using ht

theorem displayInv_handlePlusMinus (s : CalcState) (h : DisplayInv s) :
    DisplayInv (handlePlusMinus s) := by
  rw [handlePlusMinus]
  by_cases h0 : s.display = "0"
  · rw [if_pos h0]
    exact h
  · rw [if_neg h0]
    by_cases hsm : startsMinus s.display = true
    · rw [if_pos hsm]
      have hdm : s.display.data.head? = some '-' := of_decide_eq_true hsm
      rcases h.1 with hs | ht
      · rcases hs with hcsh | ⟨cs, hdata, hcsh⟩
        · obtain ⟨c, cs2, hcs, hdig⟩ := charsShape_head hcsh
          rw [hcs] at hdm
          simp only [List.head?_cons, Option.some.injEq] at hdm
          rw [hdm] at hdig
          exact absurd hdig (by decide)
        · apply displayInv_of_shape
          show strShape (strTail s.display)
          have htl : s.display.data.tail = cs := by
            rw [hdata]
            rfl
          show charsShape s.display.data.tail ∨
            ∃ cs2, s.display.data.tail = '-' :: cs2 ∧ charsShape cs2
          rw [htl]
          exact Or.inl hcsh
      · have hwt : s.waitingForOperand = true := h.2 ht
        rcases token_cases ht with ((he | he) | he) | he
        · rw [he] at hdm
          exact absurd hdm (by decide)
        · refine ⟨Or.inr ?_, fun _ => hwt⟩
          show nonFiniteToken (strTail s.display) = true
          rw [he]
          decide
        · rw [he] at hdm
          exact absurd hdm (by decide)
        · refine ⟨Or.inr ?_, fun _ => hwt⟩
          show nonFiniteToken (strTail s.display) = true
          rw [he]
          decide
    · rw [if_neg hsm]
      rcases h.1 with hs | ht
      · rcases hs with hcsh | ⟨cs, hdata, hcsh⟩
        · apply displayInv_of_shape
          show strShape (strCons '-' s.display)
          exact Or.inr ⟨s.display.data, rfl, hcsh⟩
        · exfalso
          apply hsm
          rw [startsMinus, hdata]
          simp
      · have hwt : s.waitingForOperand = true := h.2 ht
        rcases token_cases ht with ((he | he) | he) | he
        · refine ⟨Or.inr ?_, fun _ => hwt⟩
          show nonFiniteToken (strCons '-' s.display) = true
          rw [he]
          decide
        · exfalso
          apply hsm
          rw [he]
          decide
        · refine ⟨Or.inr ?_, fun _ => hwt⟩
          show nonFiniteToken (strCons '-' s.display) = true
          rw [he]
          decide
        · exfalso
          apply hsm
          rw [he]
          decide

theorem displayInv_handlePercent (s : CalcState) : DisplayInv (handlePercent s) := by
  apply displayInv_of_shape
  show strShape (formatNumber (.num (toNumber s.display / 100)))
  rw [formatNumber_num]
  exact strShape_ratToString _

theorem displayInv_handleConstant (T : TransFuns) (k : ConstKind) (s : CalcState) :
    DisplayInv (handleConstant T k s) := by
  cases k with
  | PI =>
    apply displayInv_of_shape
    show strShape (formatNumber (.num T.piV))
    rw [formatNumber_num]
    exact strShape_ratToString _
  | E =>
    apply displayInv_of_shape
    show strShape (formatNumber (.num T.eV))
    rw [formatNumber_num]
    exact strShape_ratToString _

theorem displayInv_applyUnary (T : TransFuns) (fn : UnaryFn) (w : Bool) (s : CalcState) :
    DisplayInv (applyUnary T fn w s) :=
  ⟨fmt_shape_or_token _, fun _ => rfl⟩

theorem displayInv_step (T : TransFuns) (i : Input) (s : CalcState) (h : DisplayInv s) :
    DisplayInv (step T i s) := by
  cases i with
  | digit d => exact displayInv_handleDigit d.isLt s h
  | decimal => exact displayInv_handleDecimal s h
  | op c => exact displayInv_handleOperator T c s h
  | equals w => exact displayInv_handleEquals T w s h
  | clear => exact displayInv_handleClear s
  | del => exact displayInv_handleDelete s h
  | plusMinus => exact displayInv_handlePlusMinus s h
  | percent => exact displayInv_handlePercent s
  | const k => exact displayInv_handleConstant T k s
  | unary fn w => exact displayInv_applyUnary T fn w s
  | angle => exact ⟨h.1, h.2⟩

theorem displayInv_run (T : TransFuns) (is : List Input) (s : CalcState) (h : DisplayInv s) :
    DisplayInv (run T is s) := by
  induction is generalizing s with
  | nil => exact h
  | cons i is ih => exact ih _ (displayInv_step T i s h)

theorem displayInv_init (c : Bool) : DisplayInv (initState c) :=
  displayInv_of_shape strShape_zero

end Calc

namespace Calc

/-! ### Decimal-point counting -/

theorem count_dot_zero_of_digits {l : List Char} (h : l.all isDigitCh = true) :
    l.count '.' = 0 := by
  rw [List.count_eq_zero]
  intro hm
  rw [List.all_eq_true] at h
  exact absurd (h _ hm) (by decide)

theorem countDots_le_one_of_shape {s : String} (h : strShape s) : countDots s ≤ 1 := by
  have core : ∀ cs : List Char, charsShape cs → cs.count '.' ≤ 1 := by
    intro cs hc
    obtain ⟨ds, rest, rfl, _, hall, hrest⟩ := hc
    rw [List.count_append, count_dot_zero_of_digits hall]
    rcases hrest with rfl | ⟨fs, rfl, hfs⟩
    · simp
    · rw [List.count_cons, count_dot_zero_of_digits hfs]
      simp
  rcases h with h | ⟨cs, hdata, h⟩
  · exact core _ h
  · rw [countDots, hdata, List.count_cons]
    simpa using core _ h

theorem countDots_of_inv {s : CalcState} (h : DisplayInv s) : countDots s.display ≤ 1 := by
  rcases h.1 with hs | ht
  · exact countDots_le_one_of_shape hs
  · rcases token_cases ht with ((he | he) | he) | he <;> rw [he] <;> decide

theorem countDots_handleDigit {n : ℕ} (hn : n < 10) (s : CalcState) :
    countDots (handleDigit (digitChar n) s).display ≤ countDots s.display := by
  have hd0 : [digitChar n].count '.' = 0 := by
    rw [List.count_eq_zero]
    intro hm
    simp only [List.mem_singleton] at hm
    have := isDigitCh_digitChar hn
    rw [← hm] at this
    exact absurd this (by decide)
  rw [handleDigit]
  by_cases hw : s.waitingForOperand = true
  · rw [if_pos hw]
    show countDots (strOfChar (digitChar n)) ≤ countDots s.display
    rw [countDots]
    show [digitChar n].count '.' ≤ countDots s.display
    rw [hd0]
    exact Nat.zero_le _
  · rw [if_neg hw]
    show countDots (appendDigit s.display (digitChar n)) ≤ countDots s.display
    rw [appendDigit]
    by_cases h0 : s.display = "0"
    · rw [if_pos h0]
      show [digitChar n].count '.' ≤ countDots s.display
      rw [hd0]
      exact Nat.zero_le _
    · rw [if_neg h0]
      show (s.display.data ++ [digitChar n]).count '.' ≤ countDots s.display
      rw [List.count_append, hd0, countDots]
      simp

/-! ### History length -/

theorem pushHistory_le (e r : String) (l : List HistoryEntry) :
    (pushHistory e r l).length ≤ 10 := by
  rw [pushHistory]
  exact List.length_take_le 10 _

theorem step_history_le (T : TransFuns) (i : Input) (s : CalcState)
    (h : s.history.length ≤ 10) : (step T i s).history.length ≤ 10 := by
  cases i with
  | digit d =>
    rw [step, handleDigit]
    split
    · exact h
    · exact h
  | decimal =>
    rw [step, handleDecimal]
    split
    · exact h
    · split
      · exact h
      · exact h
  | op c =>
    rw [step, handleOperator]
    split
    · exact h
    · split
      · exact h
      · exact h
  | equals w =>
    rw [step, handleEquals]
    split
    · exact pushHistory_le _ _ _
    · exact h
  | clear => exact h
  | del =>
    rw [step, handleDelete]
    split
    · exact h
    · split
      · exact h
      · exact h
  | plusMinus =>
    rw [step, handlePlusMinus]
    split
    · exact h
    · split
      · exact h
      · exact h
  | percent => exact h
  | const k =>
    cases k
    · exact h
    · exact h
  | unary fn w => exact pushHistory_le _ _ _
  | angle => exact h

theorem run_history_le (T : TransFuns) (is : List Input) (s : CalcState)
    (h : s.history.length ≤ 10) : (run T is s).history.length ≤ 10 := by
  induction is generalizing s with
  | nil => exact h
  | cons i is ih => exact ih _ (step_history_le T i s h)

/-! ### Connectivity flag -/

theorem persistReady_true {r w : Bool} (h : persistReady r w = true) : r = true := by
  cases r with
  | false => simp [persistReady] at h
  | true => rfl

theorem step_sbReady_mono (T : TransFuns) (i : Input) (s : CalcState)
    (h : (step T i s).sbReady = true) : s.sbReady = true := by
  cases i with
  | digit d =>
    rw [step, handleDigit] at h
    split at h
    · exact h
    · exact h
  | decimal =>
    rw [step, handleDecimal] at h
    split at h
    · exact h
    · split at h
      · exact h
      · exact h
  | op c =>
    rw [step, handleOperator] at h
    split at h
    · exact h
    · split at h
      · exact h
      · exact h
  | equals w =>
    rw [step, handleEquals] at h
    split at h
    · exact persistReady_true h
    · exact h
  | clear => exact h
  | del =>
    rw [step, handleDelete] at h
    split at h
    · exact h
    · split at h
      · exact h
      · exact h
  | plusMinus =>
    rw [step, handlePlusMinus] at h
    split at h
    · exact h
    · split at h
      · exact h
      · exact h
  | percent => exact h
  | const k =>
    cases k
    · exact h
    · exact h
  | unary fn w =>
    rw [step, applyUnary] at h
    exact persistReady_true h
  | angle => exact h

theorem mount_sbReady_mono (p : Bool) (rr : Option (List HistoryEntry)) (s : CalcState)
    (h : (mount p rr s).sbReady = true) : s.sbReady = true := by
  rw [mount.eq_def] at h
  split at h
  · exact h
  · split at h
    · exact absurd h (by simp)
    · cases rr with
      | none => exact absurd h (by simp)
      | some rows => exact h

theorem mount_probe_fail (rr : Option (List HistoryEntry)) (s : CalcState)
    (h : s.sbReady = true) : (mount false rr s).sbReady = false := by
  simp [mount.eq_def, h]

theorem mount_read_fail (s : CalcState) (h : s.sbReady = true) :
    (mount true none s).sbReady = false := by
  simp [mount.eq_def, h]

end Calc

namespace Calc

/-! ### Handler reduction lemmas -/

theorem handleOperator_capture (T : TransFuns) (c : Char) (s : CalcState)
    (hprev : s.prevValue = none) :
    handleOperator T c s =
      { s with prevValue := some (.num (toNumber s.display)), operator := some c,
               waitingForOperand := true } := by
  rw [handleOperator, hprev]

theorem handleOperator_eval (T : TransFuns) (c2 : Char) (s : CalcState) (a : JsNum)
    (hprev : s.prevValue = some a) (hw : s.waitingForOperand = false) :
    handleOperator T c2 s =
      { s with prevValue := some (computeBinaryO T a (.num (toNumber s.display)) s.operator),
               display := formatNumber (computeBinaryO T a (.num (toNumber s.display)) s.operator),
               operator := some c2, waitingForOperand := true } := by
  rw [handleOperator, hprev]
  simp [hw]

theorem handleEquals_eval (T : TransFuns) (w : Bool) (s : CalcState) (c : Char) (a : JsNum)
    (hop : s.operator = some c) (hprev : s.prevValue = some a) :
    handleEquals T w s =
      { s with display := formatNumber (computeBinary T a (.num (toNumber s.display)) c),
               prevValue := none, operator := none, waitingForOperand := true,
               history := pushHistory
                 (formatNumber a ++ " " ++ strOfChar c ++ " " ++
                   formatNumber (.num (toNumber s.display)))
                 (jsToString (computeBinary T a (.num (toNumber s.display)) c)) s.history,
               sbReady := persistReady s.sbReady w } := by
  rw [handleEquals, hop, hprev]
  rfl

/-! ### Digit-entry runs -/

theorem run_cons (T : TransFuns) (i : Input) (is : List Input) (s : CalcState) :
    run T (i :: is) s = run T is (step T i s) := rfl

theorem run_append (T : TransFuns) (l1 l2 : List Input) (s : CalcState) :
    run T (l1 ++ l2) s = run T l2 (run T l1 s) :=
  List.foldl_append _ _ _ _

theorem handleDigit_nonwaiting (d : Char) (s : CalcState) (hw : s.waitingForOperand = false) :
    handleDigit d s = { s with display := appendDigit s.display d } := by
  rw [handleDigit, hw]
  simp

theorem run_digits_nonwaiting (T : TransFuns) (ds : List (Fin 10)) (s : CalcState)
    (hw : s.waitingForOperand = false) :
    run T (ds.map Input.digit) s =
      { s with display := ds.foldl (fun cur d => appendDigit cur (digitChar d.val)) s.display } := by
  induction ds generalizing s with
  | nil => rfl
  | cons d ds ih =>
    rw [List.map_cons, run_cons]
    rw [show step T (Input.digit d) s = handleDigit (digitChar d.val) s from rfl]
    rw [handleDigit_nonwaiting _ _ hw]
    rw [ih { s with display := appendDigit s.display (digitChar d.val) } hw]
    simp

theorem digitBuf_cons (d : Fin 10) (ds : List (Fin 10)) :
    digitBuf (d :: ds) =
      ds.foldl (fun cur d2 => appendDigit cur (digitChar d2.val)) (strOfChar (digitChar d.val)) := by
  rw [digitBuf, List.foldl_cons]
  rfl

theorem run_digits_waiting (T : TransFuns) (d : Fin 10) (ds : List (Fin 10)) (s : CalcState)
    (hw : s.waitingForOperand = true) :
    run T ((d :: ds).map Input.digit) s =
      { s with display := digitBuf (d :: ds), waitingForOperand := false } := by
  rw [List.map_cons, run_cons]
  have h1 : step T (Input.digit d) s =
      { s with display := strOfChar (digitChar d.val), waitingForOperand := false } := by
    show handleDigit (digitChar d.val) s = _
    rw [handleDigit, hw]
    simp
  rw [h1]
  rw [run_digits_nonwaiting T ds _ rfl]
  rw [digitBuf_cons]

/-! ### Operator chains -/

theorem chain_tail (T : TransFuns) (ps : List (Char × List (Fin 10))) (w : Bool) :
    ∀ (s : CalcState) (a : JsNum) (c : Char),
      (∀ p ∈ ps, p.2 ≠ []) →
      s.prevValue = some a → s.operator = some c → s.waitingForOperand = false →
      (run T ((ps.map chunk).flatten ++ [Input.equals w]) s).display =
        formatNumber (ps.foldl (chainStep T)
          (computeBinary T a (.num (toNumber s.display)) c)) := by
  induction ps with
  | nil =>
    intro s a c _ hprev hop hw
    show (run T [Input.equals w] s).display = _
    rw [show run T [Input.equals w] s = handleEquals T w s from rfl]
    rw [handleEquals_eval T w s c a hop hprev]
    rfl
  | cons p ps ih =>
    obtain ⟨c2, x⟩ := p
    intro s a c hne hprev hop hw
    have hxne : x ≠ [] := hne (c2, x) (List.mem_cons_self _ _)
    obtain ⟨d, xs, rfl⟩ : ∃ d xs, x = d :: xs := by
      cases x with
      | nil => exact absurd rfl hxne
      | cons d xs => exact ⟨d, xs, rfl⟩
    have hstep : run T (chunk (c2, d :: xs)) s =
        { s with display := digitBuf (d :: xs),
                 prevValue := some (computeBinaryO T a (.num (toNumber s.display)) s.operator),
                 operator := some c2, waitingForOperand := false } := by
      show run T (Input.op c2 :: (d :: xs).map Input.digit) s = _
      rw [run_cons]
      rw [show step T (Input.op c2) s = handleOperator T c2 s from rfl]
      rw [handleOperator_eval T c2 s a hprev hw]
      rw [run_digits_waiting T d xs _ rfl]
    have hsplit : (((c2, d :: xs) :: ps).map chunk).flatten ++ [Input.equals w] =
        chunk (c2, d :: xs) ++ ((ps.map chunk).flatten ++ [Input.equals w]) := by
      rw [List.map_cons, List.flatten_cons, List.append_assoc]
    rw [hsplit, run_append, hstep]
    rw [ih _ _ c2 (fun p hp => hne p (List.mem_cons_of_mem _ hp)) rfl rfl rfl]
    rw [hop]
    rfl

/-! ### Evaluations are unaffected by the connectivity flag -/

theorem step_indep_sbReady (T : TransFuns) (i : Input) (s : CalcState) (b : Bool) :
    (step T i { s with sbReady := b }).display = (step T i s).display ∧
    (step T i { s with sbReady := b }).history = (step T i s).history := by
  cases i with
  | digit d =>
    by_cases hw : s.waitingForOperand = true <;> constructor <;>
      simp [step, handleDigit, hw]
  | decimal =>
    by_cases hw : s.waitingForOperand = true <;>
      by_cases hdot : containsDot s.display = false <;> constructor <;>
      simp [step, handleDecimal, hw, hdot]
  | op c =>
    cases hpv : s.prevValue with
    | none => constructor <;> simp [step, handleOperator, hpv]
    | some pv =>
      by_cases hw : s.waitingForOperand = false <;> constructor <;>
        simp [step, handleOperator, hpv, hw]
  | equals w2 =>
    cases hop : s.operator with
    | none => constructor <;> simp [step, handleEquals, hop]
    | some c =>
      cases hpv : s.prevValue with
      | none => constructor <;> simp [step, handleEquals, hop, hpv]
      | some a => constructor <;> simp [step, handleEquals, hop, hpv]
  | clear => constructor <;> rfl
  | del =>
    by_cases hw : s.waitingForOperand = true <;>
      by_cases hl : strLen s.display ≤ 1 <;> constructor <;>
      simp [step, handleDelete, hw, hl]
  | plusMinus =>
    by_cases h0 : s.display = "0" <;>
      by_cases hsm : startsMinus s.display = true <;> constructor <;>
      simp [step, handlePlusMinus, h0, hsm]
  | percent => constructor <;> rfl
  | const k => cases k <;> constructor <;> rfl
  | unary fn w2 => constructor <;> simp [step, applyUnary]
  | angle => constructor <;> rfl

end Calc

namespace Calc

/-! ### Auxiliary facts for the claim theorems -/

theorem strMk_data (s : String) : (⟨s.data⟩ : String) = s := by
  cases s
  rfl

/-- A state showing the buffer "3.14" between keystrokes. -/
def bufState : CalcState :=
  { display := "3.14", prevValue := none, operator := none, waitingForOperand := false,
    angleMode := .DEG, history := [], sbReady := false }

/-- A state with a pending `12 + _` and right operand 3, connected. -/
def eqState : CalcState :=
  { display := "3", prevValue := some (.num 12), operator := some '+',
    waitingForOperand := false, angleMode := .DEG, history := [], sbReady := true }

/-- The state showing "NaN" right after a numeric domain error. -/
def nanState : CalcState :=
  { display := "NaN", prevValue := none, operator := none, waitingForOperand := true,
    angleMode := .DEG, history := [], sbReady := false }

/-! ### Claim theorems -/

/-- C1: a chain of operator presses without an intermediate Equals evaluates
left-to-right: the final display after `x0 op1 x1 op2 x2 ... =` is the format
of the left-to-right fold of the keyed operands (`chainEval`), because an
Operator press with a pending left operand and a cleared boundary flag first
evaluates the pending operation and makes the result the new left operand;
in particular 2, +, 3, +, 4, = displays 9. -/
theorem chain_left_to_right (T : TransFuns) (cfg w : Bool) (x0 : List (Fin 10))
    (c1 : Char) (x1 : List (Fin 10)) (ps : List (Char × List (Fin 10)))
    (h1 : x1 ≠ []) (hps : ∀ p ∈ ps, p.2 ≠ []) :
    (run T (chainInputs x0 ((c1, x1) :: ps) w) (initState cfg)).display =
      formatNumber (chainEval T x0 ((c1, x1) :: ps)) ∧
    (∀ (s : CalcState) (a : JsNum) (c2 : Char), s.prevValue = some a →
      s.waitingForOperand = false →
      (handleOperator T c2 s).prevValue =
        some (computeBinaryO T a (.num (toNumber s.display)) s.operator) ∧
      (handleOperator T c2 s).operator = some c2) := by
  constructor
  · obtain ⟨d, xs, rfl⟩ : ∃ d xs, x1 = d :: xs := by
      cases x1 with
      | nil => exact absurd rfl h1
      | cons d xs => exact ⟨d, xs, rfl⟩
    rw [chainInputs, List.append_assoc, run_append]
    have h0 : run T (x0.map Input.digit) (initState cfg) =
        { initState cfg with display := digitBuf x0 } := by
      rw [run_digits_nonwaiting T x0 (initState cfg) rfl]
      rfl
    rw [h0]
    have hsplit : ((((c1, d :: xs) :: ps).map chunk).flatten ++ [Input.equals w]) =
        chunk (c1, d :: xs) ++ ((ps.map chunk).flatten ++ [Input.equals w]) := by
      rw [List.map_cons, List.flatten_cons, List.append_assoc]
    rw [hsplit, run_append]
    have hc1 : run T (chunk (c1, d :: xs)) ({ initState cfg with display := digitBuf x0 }) =
        { display := digitBuf (d :: xs),
          prevValue := some (.num (toNumber (digitBuf x0))),
          operator := some c1, waitingForOperand := false,
          angleMode := .DEG, history := [], sbReady := cfg } := by
      show run T (Input.op c1 :: (d :: xs).map Input.digit)
        ({ initState cfg with display := digitBuf x0 }) = _
      rw [run_cons]
      rw [show step T (Input.op c1) ({ initState cfg with display := digitBuf x0 }) =
        handleOperator T c1 ({ initState cfg with display := digitBuf x0 }) from rfl]
      rw [handleOperator_capture T c1 _ rfl]
      rw [run_digits_waiting T d xs _ rfl]
      rfl
    rw [hc1]
    rw [chain_tail T ps w _ _ c1 hps rfl rfl rfl]
    rfl
  · intro s a c2 hprev hw
    rw [handleOperator_eval T c2 s a hprev hw]
    exact ⟨rfl, rfl⟩

/-- Witness for C1: the concrete chain 2, +, 3, +, 4, = displays "9". -/
theorem chain_left_to_right_witness :
    (([3] : List (Fin 10)) ≠ [] ∧
      ∀ p ∈ [(('+' : Char), ([4] : List (Fin 10)))], p.2 ≠ []) ∧
    (run trivialTrans (chainInputs [2] [('+', [3]), ('+', [4])] false)
      (initState false)).display = "9" := by
  refine ⟨⟨by decide, by decide⟩, ?_⟩
  have h := chain_left_to_right trivialTrans false false [2] '+' [3] [('+', [4])]
    (by decide) (by decide)
  rw [h.1]
  with_unfolding_all decide

/-- C2: numeric domain errors return the NaN sentinel: division by zero for
every left operand, square root of a negative, reciprocal of zero; and
`formatNumber` renders the sentinel as the token "NaN", in particular for
`computeBinary 6 0 '÷'`. -/
theorem numeric_domain_errors (T : TransFuns) (m : AngleMode) (a : JsNum) (x : ℚ)
    (hx : x < 0) :
    computeBinary T a (.num 0) '÷' = .nan ∧
    unaryValue T m .sqrt x = .nan ∧
    unaryValue T m .inv 0 = .nan ∧
    formatNumber .nan = "NaN" ∧
    formatNumber (computeBinary T (.num 6) (.num 0) '÷') = "NaN" := by
  refine ⟨rfl, ?_, rfl, rfl, rfl⟩
  simp [unaryValue, hx]

/-- Witness for C2 at left operand 5 and sqrt input -4. -/
theorem numeric_domain_errors_witness :
    ((-4 : ℚ) < 0) ∧ unaryValue trivialTrans .DEG .sqrt (-4) = .nan ∧
    computeBinary trivialTrans (.num 5) (.num 0) '÷' = .nan ∧
    formatNumber (computeBinary trivialTrans (.num 6) (.num 0) '÷') = "NaN" := by
  have h := numeric_domain_errors trivialTrans .DEG (.num 5) (-4) (by decide)
  exact ⟨by decide, h.2.1, h.1, h.2.2.2.2⟩

/-- C3: from the initial state, Digit 1, Digit 2, Operator +, Digit 3, Equals
leaves the display "15" and the history exactly [("12 + 3", "15")]. -/
theorem scenario_12_plus_3 (T : TransFuns) (cfg w : Bool) :
    (run T [.digit 1, .digit 2, .op '+', .digit 3, .equals w] (initState cfg)).display = "15" ∧
    (run T [.digit 1, .digit 2, .op '+', .digit 3, .equals w] (initState cfg)).history =
      [{ expression := "12 + 3", result := "15" }] := by
  have h4 : run T [.digit 1, .digit 2, .op '+', .digit 3] (initState cfg) =
      { display := "3", prevValue := some (.num (toNumber "12")), operator := some '+',
        waitingForOperand := false, angleMode := .DEG, history := [], sbReady := cfg } := rfl
  have hrun : run T [.digit 1, .digit 2, .op '+', .digit 3, .equals w] (initState cfg) =
      handleEquals T w (run T [.digit 1, .digit 2, .op '+', .digit 3] (initState cfg)) := rfl
  rw [hrun, h4]
  rw [handleEquals_eval T w _ '+' (.num (toNumber "12")) rfl rfl]
  have htn12 : toNumber "12" = 12 := by decide
  have htn3 : toNumber "3" = 3 := by decide
  have hcb : computeBinary T (.num 12) (.num 3) '+' = .num 15 := by
    show JsNum.num ((12 : ℚ) + 3) = .num 15
    norm_num
  constructor
  · show formatNumber (computeBinary T (.num (toNumber "12"))
      (.num (toNumber "3")) '+') = "15"
    rw [htn12, htn3, hcb]
    decide
  · show pushHistory (formatNumber (JsNum.num (toNumber "12")) ++ " " ++ strOfChar '+' ++ " " ++
        formatNumber (.num (toNumber "3")))
      (jsToString (computeBinary T (.num (toNumber "12")) (.num (toNumber "3")) '+')) [] =
      [{ expression := "12 + 3", result := "15" }]
    rw [htn12, htn3, hcb]
    decide

/-- C4: the local history cache never exceeds 10 entries under any input
sequence from the initial state, and each record prepends the new entry
(newest first) and truncates to the first 10, evicting the oldest. -/
theorem history_cap (T : TransFuns) (cfg : Bool) (is : List Input) (e r : String)
    (l : List HistoryEntry) :
    (run T is (initState cfg)).history.length ≤ 10 ∧
    (pushHistory e r l).head? = some { expression := e, result := r } ∧
    (pushHistory e r l).tail = l.take 9 ∧
    (pushHistory e r l).length ≤ 10 := by
  exact ⟨run_history_le T is _ (by simp [initState]), rfl, rfl, pushHistory_le e r l⟩

/-- C5: the display never holds two decimal points: Decimal is the identity
on a non-waiting buffer that already contains a point, starts "0." when the
boundary flag is set, every reachable display has at most one point, and a
digit press never increases the number of points. -/
theorem single_decimal_point (T : TransFuns) (cfg : Bool) (is : List Input) (s : CalcState)
    (d : Fin 10) (hw : s.waitingForOperand = false) (hdot : containsDot s.display = true) :
    (handleDecimal s).display = s.display ∧
    (∀ s2 : CalcState, s2.waitingForOperand = true → (handleDecimal s2).display = "0.") ∧
    countDots ((run T is (initState cfg)).display) ≤ 1 ∧
    countDots ((handleDigit (digitChar d.val) s).display) ≤ countDots s.display := by
  refine ⟨?_, ?_, ?_, countDots_handleDigit d.isLt s⟩
  · simp [handleDecimal, hw, hdot]
  · intro s2 hw2
    simp [handleDecimal, hw2]
  · exact countDots_of_inv (displayInv_run T is _ (displayInv_init cfg))

/-- Witness for C5: repeated Decimal presses on the buffer "3.14" leave it
unchanged. -/
theorem single_decimal_point_witness :
    (handleDecimal bufState).display = "3.14" ∧
    (handleDecimal (handleDecimal bufState)).display = "3.14" := by
  have h1 := (single_decimal_point trivialTrans false [] bufState 0 rfl (by decide)).1
  have h2 := (single_decimal_point trivialTrans false [] (handleDecimal bufState) 0
    (by decide) (by decide)).1
  constructor
  · exact h1
  · rw [h2]
    exact h1

/-- C6 counterexample: after Digit 4, ToggleSign, sqrt the display is "NaN",
which neither parses to a finite number nor is the literal zero string. -/
theorem display_parse_counterexample :
    ¬ ((jsParseFinite (run trivialTrans [.digit 4, .plusMinus, .unary .sqrt false]
          (initState false)).display).isSome = true ∨
       (run trivialTrans [.digit 4, .plusMinus, .unary .sqrt false]
          (initState false)).display = "0") := by
  decide

/-- C6 (amended): in every reachable state the display parses to a finite
number, or is the literal zero string, or is one of the non-finite tokens
"NaN", "-NaN", "Infinity", "-Infinity" produced by formatting a non-finite
result (possibly sign-toggled). -/
theorem display_parse_amended (T : TransFuns) (cfg : Bool) (is : List Input) :
    (jsParseFinite (run T is (initState cfg)).display).isSome = true ∨
    (run T is (initState cfg)).display = "0" ∨
    nonFiniteToken (run T is (initState cfg)).display = true := by
  have h := displayInv_run T is _ (displayInv_init cfg)
  rcases h.1 with hs | ht
  · exact Or.inl (jsParseFinite_isSome_of_shape hs)
  · exact Or.inr (Or.inr ht)

/-- C7: the connectivity flag is monotone — no step or mount ever turns it
back on; a failed probe, a failed hydration read or a failed write while
connected turns it off; and the display and local history updates of every
input are identical whatever the flag's value. -/
theorem offline_terminal :
    (∀ (T : TransFuns) (i : Input) (s : CalcState),
        (step T i s).sbReady = true → s.sbReady = true) ∧
    (∀ (p : Bool) (rr : Option (List HistoryEntry)) (s : CalcState),
        (mount p rr s).sbReady = true → s.sbReady = true) ∧
    (∀ (rr : Option (List HistoryEntry)) (s : CalcState), s.sbReady = true →
        (mount false rr s).sbReady = false) ∧
    (∀ s : CalcState, s.sbReady = true → (mount true none s).sbReady = false) ∧
    (∀ (T : TransFuns) (s : CalcState) (c : Char) (a : JsNum),
        s.operator = some c → s.prevValue = some a →
        (handleEquals T true s).sbReady = false) ∧
    (∀ (T : TransFuns) (fn : UnaryFn) (s : CalcState),
        (applyUnary T fn true s).sbReady = false) ∧
    (∀ (T : TransFuns) (i : Input) (s : CalcState) (b : Bool),
        (step T i { s with sbReady := b }).display = (step T i s).display ∧
        (step T i { s with sbReady := b }).history = (step T i s).history) := by
  refine ⟨step_sbReady_mono, mount_sbReady_mono, mount_probe_fail, mount_read_fail,
    ?_, ?_, step_indep_sbReady⟩
  · intro T s c a hop hprev
    rw [handleEquals_eval T true s c a hop hprev]
    show persistReady s.sbReady true = false
    cases s.sbReady <;> rfl
  · intro T fn s
    show persistReady s.sbReady true = false
    cases s.sbReady <;> rfl

/-- Witness for C7 at a concrete connected state with a pending operation. -/
theorem offline_terminal_witness :
    eqState.sbReady = true ∧
    (mount false none eqState).sbReady = false ∧
    (mount true none eqState).sbReady = false ∧
    (handleEquals trivialTrans true eqState).sbReady = false ∧
    (applyUnary trivialTrans .sqrt true eqState).sbReady = false ∧
    (step trivialTrans (.digit 5) { eqState with sbReady := false }).display =
      (step trivialTrans (.digit 5) eqState).display := by
  refine ⟨offline_terminal.1 trivialTrans .clear eqState rfl,
    offline_terminal.2.2.1 none eqState rfl,
    offline_terminal.2.2.2.1 eqState rfl,
    offline_terminal.2.2.2.2.1 trivialTrans eqState '+' (.num 12) rfl rfl,
    offline_terminal.2.2.2.2.2.1 trivialTrans .sqrt eqState,
    (offline_terminal.2.2.2.2.2.2 trivialTrans (.digit 5) eqState false).1⟩

/-- C8: the log10 and ln paths apply to the absolute value of their
argument, so they agree at x and |x| for every input. -/
theorem log_abs_mirror (T : TransFuns) (m : AngleMode) (x : ℚ) :
    unaryValue T m .log x = unaryValue T m .log |x| ∧
    unaryValue T m .ln x = unaryValue T m .ln |x| := by
  constructor <;> simp [unaryValue, abs_abs]

/-- C9: when the display does not parse to a finite number, every numeric
read of the buffer yields 0; in particular an Operator press with no pending
left operand captures 0. -/
theorem nonfinite_buffer_reads_zero (T : TransFuns) (s : CalcState) (c : Char)
    (h : jsParseFinite s.display = none) :
    toNumber s.display = 0 ∧
    (s.prevValue = none → (handleOperator T c s).prevValue = some (.num 0)) := by
  constructor
  · rw [toNumber, h]
    rfl
  · intro hp
    rw [handleOperator_capture T c s hp]
    show some (JsNum.num (toNumber s.display)) = some (.num 0)
    rw [toNumber, h]
    rfl

/-- Witness for C9 at the "NaN" buffer. -/
theorem nonfinite_buffer_reads_zero_witness :
    jsParseFinite nanState.display = none ∧ toNumber nanState.display = 0 ∧
    (handleOperator trivialTrans '+' nanState).prevValue = some (.num 0) := by
  have h := nonfinite_buffer_reads_zero trivialTrans nanState '+' (by decide)
  exact ⟨by decide, h.1, h.2 rfl⟩

/-- C10: on a buffer that does not start with a minus sign, ToggleSign twice
is the identity, and "0" is a fixed point. -/
theorem toggle_sign_involution (s : CalcState) (h : startsMinus s.display = false) :
    (handlePlusMinus (handlePlusMinus s)).display = s.display ∧
    (s.display = "0" → (handlePlusMinus s).display = "0") := by
  by_cases h0 : s.display = "0"
  · have hfix : handlePlusMinus s = s := by rw [handlePlusMinus, if_pos h0]
    constructor
    · rw [hfix, hfix]
    · intro _
      rw [hfix, h0]
  · have h1 : handlePlusMinus s = { s with display := strCons '-' s.display } := by
      rw [handlePlusMinus, if_neg h0, h]
      simp
    constructor
    · rw [h1]
      have hcond : (⟨'-' :: s.display.data⟩ : String) ≠ "0" := by
        intro he
        have hd := congrArg String.data he
        rw [show ("0" : String).data = ['0'] from rfl] at hd
        injection hd with e1 _
        exact absurd e1 (by decide)
      show (handlePlusMinus { s with display := strCons '-' s.display }).display = s.display
      simp [handlePlusMinus, strCons, strTail, startsMinus, hcond, strMk_data]
    · intro he
      exact absurd he h0

/-- Witness for C10 on the buffer "3.14". -/
theorem toggle_sign_involution_witness :
    startsMinus bufState.display = false ∧
    (handlePlusMinus (handlePlusMinus bufState)).display = "3.14" := by
  have h := toggle_sign_involution bufState (by decide)
  exact ⟨by decide, h.1⟩

end Calc
